import Mathlib

/-!
# Shallow embedding of the numerical-methods kernel of `numericalProjectForStudents`

Each definition below is translated from one function of the repository's
source (the React pages in `src/src/components` and the unnamed source parts).
JavaScript double-precision numbers are modelled by exact rationals `ℚ`:
decimal literals such as `1e-12`, `1e-3`, `0.2` become the exact rationals
`1/10^12`, `1/1000`, `1/5`, and `Number.isFinite` checks are dropped because
every rational is finite.  JavaScript `while`/`for` loops become structural
recursion on an explicit fuel argument; where a loop carries its own bound
(`i <= 100`, `log.length < 120`) the fuel is chosen strictly larger than the
bound so that only the source's own condition can stop the loop.
-/

namespace NumKernel

/-! ## Newton–Raphson with guarded fallback (`Algorithms.jsx`, `newtonRaphson`)

The source:
```js
function newtonRaphson(x0, tol, maxIt = 100) {
  let x = x0;
  for (let i = 1; i <= maxIt; i++) {
    const dfx = df(x);
    if (Math.abs(dfx) < 1e-12) { x += 1e-3; continue; }
    const xNext = x - f(x) / dfx;
    if (Math.abs(xNext - x) < tol) {
      return { root: xNext, iters: i, err: Math.abs(f(xNext)) };
    }
    x = xNext;
  }
  throw new Error('Newton–Raphson failed to converge within max iterations');
}
```
The wall-clock `time` field is not modelled; the thrown error becomes `none`.
`f` and `df` are the closures the component builds (the parsed function and
its central finite-difference derivative); they are parameters here. -/

/-- Loop body of `newtonRaphson`: `fuel` is the number of remaining iterations
(`maxIt - i + 1`), `i` the 1-based iteration counter. -/
def newtonGo (f df : ℚ → ℚ) (tol : ℚ) : ℕ → ℚ → ℕ → Option (ℚ × ℕ × ℚ)
  | 0, _, _ => none
  | fuel + 1, x, i =>
    let dfx := df x
    if |dfx| < 1 / 10 ^ 12 then
      newtonGo f df tol fuel (x + 1 / 1000) (i + 1)
    else
      let xNext := x - f x / dfx
      if |xNext - x| < tol then some (xNext, i, |f xNext|)
      else newtonGo f df tol fuel xNext (i + 1)

/-- `newtonRaphson(x0, tol, maxIt)` from `Algorithms.jsx`: `some (root, iters, err)`
on convergence, `none` for the thrown no-convergence error.  The page calls it
with `maxIt = 100` (the default). -/
def newtonRaphson (f df : ℚ → ℚ) (x0 tol : ℚ) (maxIt : ℕ) : Option (ℚ × ℕ × ℚ) :=
  newtonGo f df tol maxIt x0 1

/-- The next iterate of `newtonRaphson`, whichever branch runs: the `1e-3`
nudge when the derivative guard fires, the Newton step otherwise. -/
def nrNext (f df : ℚ → ℚ) (x : ℚ) : ℚ :=
  if |df x| < 1 / 10 ^ 12 then x + 1 / 1000 else x - f x / df x

/-- The iteration at `x` returns (converges): the derivative guard does not
fire and the step criterion `|xNext - x| < tol` holds. -/
def nrHits (f df : ℚ → ℚ) (tol x : ℚ) : Prop :=
  ¬ |df x| < 1 / 10 ^ 12 ∧ |(x - f x / df x) - x| < tol

/-! ## Newton–Raphson page (`NewtonRaphson.jsx`, `runNewton`)

The source loop:
```js
for (let i = 1; i <= maxIter; i++) {
  const fxVal = evalF(x);
  const dfx   = evalDf(x);
  log.push({ i, x, fx: fxVal, dfx });
  if (Math.abs(fxVal) < ε) break;
  if (!Number.isFinite(dfx) || dfx === 0) {
    log[log.length - 1].note = 'Derivative zero / invalid – stop'; break;
  }
  const xNew = x - fxVal / dfx;
  if (Math.abs(xNew - x) < ε) {
    x = xNew;
    log.push({ i: i + 1, x, fx: evalF(x), dfx: evalDf(x), note: '✔ converged' });
    break;
  }
  x = xNew;
}
```
The two `note` strings become the tags of `NNote`; a record without a note is
tagged `NNote.ok`.  The `Number.isFinite` half of the guard vanishes over `ℚ`. -/

/-- Note attached to a `runNewton` iteration record. -/
inductive NNote
  | ok
  | stopDeriv
  | converged
deriving DecidableEq, Repr

/-- One row of the `runNewton` iteration table. -/
structure NRec where
  i : ℕ
  x : ℚ
  fx : ℚ
  dfx : ℚ
  note : NNote
deriving DecidableEq, Repr

/-- Loop body of `runNewton`; `fuel` is the number of remaining iterations. -/
def runNewtonGo (f df : ℚ → ℚ) (tol : ℚ) : ℕ → ℕ → ℚ → List NRec
  | 0, _, _ => []
  | fuel + 1, i, x =>
    let fx := f x
    let dfx := df x
    if |fx| < tol then [⟨i, x, fx, dfx, .ok⟩]
    else if dfx = 0 then [⟨i, x, fx, dfx, .stopDeriv⟩]
    else
      let xNew := x - fx / dfx
      if |xNew - x| < tol then
        [⟨i, x, fx, dfx, .ok⟩, ⟨i + 1, xNew, f xNew, df xNew, .converged⟩]
      else ⟨i, x, fx, dfx, .ok⟩ :: runNewtonGo f df tol fuel (i + 1) xNew

/-- `runNewton` from `NewtonRaphson.jsx`: the iteration log it stores in
`steps`.  `f` is the compiled expression, `df` its symbolic derivative. -/
def runNewton (f df : ℚ → ℚ) (x0 tol : ℚ) (maxIter : ℕ) : List NRec :=
  runNewtonGo f df tol maxIter 1 x0

/-! ## Bisection page (`Bisection.jsx`, `runBisection`)

The source loop (the iteration cap `100` is hard-coded, not a parameter):
```js
for (let i = 1; i <= 100 && (bb - aa) / 2 > ε; i++) {
  const c = (aa + bb) / 2;
  const fc = evaluateF(c);
  log.push({ i, a: aa, b: bb, c, fc });
  if (fc === 0) break;
  if (evaluateF(aa) * fc < 0) { bb = c; } else { aa = c; }
}
```
The page runs it only when its validation banner is clear; the sign check of
that banner (`fa * fb > 0` sets the error) is modelled by `bisectChecked`. -/

/-- One row of the bisection iteration table. -/
structure BisectRec where
  i : ℕ
  a : ℚ
  b : ℚ
  c : ℚ
  fc : ℚ
deriving DecidableEq, Repr

/-- Loop body of `runBisection`; the fuel starts at `101 > 100` so only the
source's own conditions (`i <= 100 && (bb - aa)/2 > ε`, `fc === 0`) stop it. -/
def bisectGo (f : ℚ → ℚ) (tol : ℚ) : ℕ → ℕ → ℚ → ℚ → List BisectRec
  | 0, _, _, _ => []
  | fuel + 1, i, aa, bb =>
    if i ≤ 100 ∧ tol < (bb - aa) / 2 then
      let c := (aa + bb) / 2
      let fc := f c
      if fc = 0 then [⟨i, aa, bb, c, fc⟩]
      else if f aa * fc < 0 then ⟨i, aa, bb, c, fc⟩ :: bisectGo f tol fuel (i + 1) aa c
      else ⟨i, aa, bb, c, fc⟩ :: bisectGo f tol fuel (i + 1) c bb
    else []

/-- `runBisection` from `Bisection.jsx`: the iteration log it stores in `steps`. -/
def runBisection (f : ℚ → ℚ) (a b tol : ℚ) : List BisectRec :=
  bisectGo f tol 101 1 a b

/-- The page's validation gate composed with the loop: the banner error
`f(a) and f(b) must have opposite signs` (set when `fa * fb > 0`) disables
execution, so no trace is produced. -/
def bisectChecked (f : ℚ → ℚ) (a b tol : ℚ) : Option (List BisectRec) :=
  if 0 < f a * f b then none else some (runBisection f a b tol)

/-- The bracket produced by one bisection step: replace the bound whose
function value shares the sign of `f(c)` (the source's
`(f(aa) * f(c) < 0) ? (bb = c) : (aa = c)`). -/
def nextBracket (f : ℚ → ℚ) (p : ℚ × ℚ) : ℚ × ℚ :=
  let c := (p.1 + p.2) / 2
  if f p.1 * f c < 0 then (p.1, c) else (c, p.2)

/-- Midpoint of a bracket. -/
def midpt (p : ℚ × ℚ) : ℚ := (p.1 + p.2) / 2

/-- The bracket before the `k`-th recorded bisection step (0-based). -/
def brk (f : ℚ → ℚ) (a b : ℚ) (k : ℕ) : ℚ × ℚ := (nextBracket f)^[k] (a, b)

/-! ## Comparison demo bisection (`Algorithms.jsx`, `bisection`)

```js
function bisection(a, b, tol, maxIt = 100) {
  let aa = a, bb = b;
  if (f(aa) * f(bb) > 0) throw new Error('f(a) and f(b) must have opposite signs');
  let i;
  for (i = 1; i <= maxIt; i++) {
    const c = (aa + bb) / 2;
    if ((bb - aa) / 2 < tol || f(c) === 0) {
      return { root: c, iters: i, err: Math.abs(f(c)) };
    }
    (f(aa) * f(c) < 0) ? (bb = c) : (aa = c);
  }
  throw new Error('Bisection exceeded max iterations (should be impossible)');
}
```
Both thrown errors become `none`; the wall-clock `time` field is dropped. -/

/-- Loop body of `Algorithms.jsx`'s `bisection`. -/
def bisectionAlgGo (f : ℚ → ℚ) (tol : ℚ) : ℕ → ℕ → ℚ → ℚ → Option (ℚ × ℕ × ℚ)
  | 0, _, _, _ => none
  | fuel + 1, i, aa, bb =>
    let c := (aa + bb) / 2
    if (bb - aa) / 2 < tol ∨ f c = 0 then some (c, i, |f c|)
    else if f aa * f c < 0 then bisectionAlgGo f tol fuel (i + 1) aa c
    else bisectionAlgGo f tol fuel (i + 1) c bb

/-- `bisection(a, b, tol, maxIt)` from `Algorithms.jsx`: `none` for the
sign-error throw (before any iteration) and for the max-iteration throw. -/
def bisection (f : ℚ → ℚ) (a b tol : ℚ) (maxIt : ℕ) : Option (ℚ × ℕ × ℚ) :=
  if 0 < f a * f b then none
  else bisectionAlgGo f tol maxIt 1 a b

/-! ## Gauss–Seidel

Two implementations exist in the source.

`LinearSystems.jsx` (`gaussSeidel(A, b, tol, maxIter)`):
```js
const n = A.length;
let x = new Array(n).fill(0);
for (let k = 0; k < maxIter; k++) {
  let xOld = [...x];
  for (let i = 0; i < n; i++) {
    let sigma = 0;
    for (let j = 0; j < n; j++) { if (j !== i) sigma += A[i][j] * x[j]; }
    x[i] = (b[i] - sigma) / A[i][i];
  }
  const diff = Math.max(...x.map((xi, i) => Math.abs(xi - xOld[i])));
  if (diff < tol) return { x, iterations: k + 1 };
}
return { x, iterations: maxIter };
```

`GaussSeidel.jsx` (`runGS`) runs the same in-place sweep from the same zero
initial guess, logs `{k, x, res}` with the residual 2-norm each sweep, breaks
when `res < tol`, and is gated by the `parsed` validation (square matrix,
matching vector length, strict diagonal dominance — a failed dominance check
is an error that disables the Execute button and makes `runGS` return early). -/

/-- Entry `A[i][j]` of a matrix stored as a list of rows (out-of-range reads
give `0`; the source never reads out of range on validated input). -/
def getE (A : List (List ℚ)) (i j : ℕ) : ℚ := (A.getD i []).getD j 0

/-- One in-place Gauss–Seidel sweep: each `x[i]` is recomputed from the
current vector, so indices `< i` already hold this sweep's values. -/
def gsSweep (A : List (List ℚ)) (b : List ℚ) (x : List ℚ) : List ℚ :=
  (List.range A.length).foldl
    (fun v i =>
      let sigma := (List.range A.length).foldl
        (fun s j => if j = i then s else s + getE A i j * v.getD j 0) 0
      v.set i ((b.getD i 0 - sigma) / getE A i i))
    x

/-- The sweep-change test `Math.max(...|x_i - xOld_i|) < tol`: over `ℚ` the
maximum of the finitely many differences is below `tol` iff every difference
is (and `Math.max()` of an empty spread is `-Infinity`, below every `tol`). -/
def gsDiffLt (x xOld : List ℚ) (tol : ℚ) : Bool :=
  (List.zip x xOld).all fun p => |p.1 - p.2| < tol

/-- Loop body of `LinearSystems.jsx`'s `gaussSeidel`: `fuel` is the number of
remaining sweeps, `used` the number already performed. -/
def gaussSeidelGo (A : List (List ℚ)) (b : List ℚ) (tol : ℚ) :
    ℕ → List ℚ → ℕ → List ℚ × ℕ
  | 0, x, used => (x, used)
  | fuel + 1, x, used =>
    let x' := gsSweep A b x
    if gsDiffLt x' x tol then (x', used + 1)
    else gaussSeidelGo A b tol fuel x' (used + 1)

/-- `gaussSeidel(A, b, tol, maxIter)` from `LinearSystems.jsx`: the final
vector and the iteration count. -/
def gaussSeidel (A : List (List ℚ)) (b : List ℚ) (tol : ℚ) (maxIter : ℕ) :
    List ℚ × ℕ :=
  gaussSeidelGo A b tol maxIter (List.replicate A.length 0) 0

/-- One row of the `runGS` iteration table.  The page stores the residual
2-norm `‖Ax-b‖₂`; over `ℚ` (no square roots) the record carries its square,
and the break test `res < tol` is rendered as `0 < tol ∧ resSq < tol²`,
which is equivalent because the norm is non-negative. -/
structure GSRec where
  k : ℕ
  x : List ℚ
  resSq : ℚ
deriving DecidableEq, Repr

/-- Squared residual 2-norm `‖Ax-b‖₂²`. -/
def residualSq (A : List (List ℚ)) (b : List ℚ) (x : List ℚ) : ℚ :=
  (List.range A.length).foldl
    (fun s i =>
      let ri := (List.range A.length).foldl
        (fun t j => t + getE A i j * x.getD j 0) 0 - b.getD i 0
      s + ri * ri) 0

/-- The `parsed` diagonal-dominance check of `GaussSeidel.jsx`: every row must
satisfy `|A[i][i]| > Σ_{j≠i} |A[i][j]|` (the source errors on `diag <= offSum`). -/
def diagDominant (A : List (List ℚ)) : Bool :=
  (List.range A.length).all fun i =>
    decide (((List.range (A.getD i []).length).foldl
      (fun s j => if j = i then s else s + |getE A i j|) 0) < |getE A i i|)

/-- The `parsed` validation of `GaussSeidel.jsx`: square matrix, vector length
equal to the dimension, and diagonal dominance.  Any failure is an error that
blocks `runGS` (the source returns before iterating and the button is disabled). -/
def gsValid (A : List (List ℚ)) (b : List ℚ) : Bool :=
  decide (∀ r ∈ A, r.length = A.length) && decide (b.length = A.length) &&
    diagDominant A

/-- Loop body of `runGS`: sweeps from `x`, records `{k, x, resSq}` each sweep,
stops on the residual test. -/
def runGSGo (A : List (List ℚ)) (b : List ℚ) (tol : ℚ) :
    ℕ → List ℚ → ℕ → List GSRec
  | 0, _, _ => []
  | fuel + 1, x, k =>
    let x' := gsSweep A b x
    let r2 := residualSq A b x'
    if 0 < tol ∧ r2 < tol ^ 2 then [⟨k, x', r2⟩]
    else ⟨k, x', r2⟩ :: runGSGo A b tol fuel x' (k + 1)

/-- `runGS` from `GaussSeidel.jsx`: `none` when the `parsed` validation fails
(no iteration runs), otherwise the iteration log, starting from the zero
vector with the step counter at 1. -/
def runGS (A : List (List ℚ)) (b : List ℚ) (tol : ℚ) (maxIter : ℕ) :
    Option (List GSRec) :=
  if gsValid A b then
    some (runGSGo A b tol maxIter (List.replicate A.length 0) 1)
  else none

/-! ## Simpson's rule (`SimpsonsRule.jsx`)

Validation (in source order — the bounds are checked before the partition
count, and the finiteness checks vanish over `ℚ`):
```js
if (!Number.isFinite(aa) || !Number.isFinite(bb) || aa >= bb) { errMsg bounds }
if (!Number.isInteger(nn) || nn <= 0 || nn % 2 !== 0) { errMsg partition }
```
`runSimpson` runs only with a clear banner:
```js
const h = (bb - aa) / nn;
let sum = evalF(aa) + evalF(bb);
for (let i = 1; i < nn; i++) {
  const x = aa + i * h;
  const weight = i % 2 === 0 ? 2 : 4;
  sum += weight * evalF(x);
}
const integral = (h / 3) * sum;
```
The partition count is an integer input, modelled by `n : ℤ`. -/

/-- The two validation errors of the Simpson page, in the spec's taxonomy:
the bounds error (`a and b must be finite with a < b`) and `InvalidPartition`
(`n must be a positive even integer`). -/
inductive SimpErr
  | invalidBounds
  | invalidPartition
deriving DecidableEq, Repr

/-- The Simpson page: validation in source order, then the `runSimpson` loop. -/
def runSimpson (f : ℚ → ℚ) (a b : ℚ) (n : ℤ) : Except SimpErr ℚ :=
  if ¬ a < b then .error .invalidBounds
  else if ¬ (0 < n ∧ n % 2 = 0) then .error .invalidPartition
  else
    let nn := n.toNat
    let h := (b - a) / (n : ℚ)
    let sum := ((List.range nn).drop 1).foldl
      (fun (s : ℚ) (i : ℕ) => s + (if i % 2 = 0 then 2 else 4) * f (a + (i : ℚ) * h))
      (f a + f b)
    .ok (h / 3 * sum)

/-- The spec's weight table: 1 at the two endpoints, 4 at odd interior
indices, 2 at even interior indices. -/
def simpsonWeight (n i : ℕ) : ℚ :=
  if i = 0 ∨ i = n then 1 else if i % 2 = 1 then 4 else 2

/-- The spec's closed formula `(h/3)·Σ(weight·f(xᵢ))` with `h = (b-a)/n` and
`xᵢ = a + i·h` (the spec-side definition the loop is compared against). -/
def specSimpson (f : ℚ → ℚ) (a b : ℚ) (n : ℤ) : ℚ :=
  let h := (b - a) / (n : ℚ)
  h / 3 *
    (((List.range (n.toNat + 1)).map
      (fun i => simpsonWeight n.toNat i * f (a + (i : ℚ) * h))).sum)

/-! ## ODE solvers (`ODEsComparison.jsx`: `rk23`, `rk45`, `dop853`)

All three share the loop shape
```js
while (t < t1 - 1e-12) {
  if (t + h > t1) h = t1 - t;
  ...stages...
  y += ...;  t += h;  fevals += k;
}
```
`h` is the mutable step variable, part of the loop state.  The stages differ;
each is translated coefficient for coefficient below. -/

/-- The mutable state of an ODE solver loop: time, value, the running count
of right-hand-side evaluations, and the (possibly clipped) step. -/
structure OdeState where
  t : ℚ
  y : ℚ
  fevals : ℕ
  h : ℚ
deriving DecidableEq, Repr

/-- One `rk23` step (Bogacki–Shampine stages with weights 2/9, 1/3, 4/9),
including the final-step clip `if (t + h > t1) h = t1 - t`. -/
def rk23Step (rhs : ℚ → ℚ → ℚ) (t1 : ℚ) (s : OdeState) : OdeState :=
  let h := if t1 < s.t + s.h then t1 - s.t else s.h
  let k1 := rhs s.t s.y
  let k2 := rhs (s.t + 1 / 2 * h) (s.y + 1 / 2 * h * k1)
  let k3 := rhs (s.t + 3 / 4 * h) (s.y + 3 / 4 * h * k2)
  ⟨s.t + h, s.y + 2 / 9 * h * k1 + 1 / 3 * h * k2 + 4 / 9 * h * k3,
    s.fevals + 3, h⟩

/-- One `rk45` step (Dormand–Prince stages), including the clip. -/
def rk45Step (rhs : ℚ → ℚ → ℚ) (t1 : ℚ) (s : OdeState) : OdeState :=
  let h := if t1 < s.t + s.h then t1 - s.t else s.h
  let k1 := rhs s.t s.y
  let k2 := rhs (s.t + h * (1 / 5)) (s.y + h * (1 / 5) * k1)
  let k3 := rhs (s.t + h * (3 / 10)) (s.y + h * (3 / 40 * k1 + 9 / 40 * k2))
  let k4 := rhs (s.t + h * (4 / 5))
    (s.y + h * (44 / 45 * k1 - 56 / 15 * k2 + 32 / 9 * k3))
  let k5 := rhs (s.t + h * 8 / 9)
    (s.y + h * (19372 / 6561 * k1 - 25360 / 2187 * k2 + 64448 / 6561 * k3
      - 212 / 729 * k4))
  let k6 := rhs (s.t + h)
    (s.y + h * (9017 / 3168 * k1 - 355 / 33 * k2 + 46732 / 5247 * k3
      + 49 / 176 * k4 - 5103 / 18656 * k5))
  ⟨s.t + h,
    s.y + h * (35 / 384 * k1 + 500 / 1113 * k3 + 125 / 192 * k4
      - 2187 / 6784 * k5 + 11 / 84 * k6),
    s.fevals + 6, h⟩

/-- One `dop853` step (two chained RK4 half-steps, 8 evaluations), including
the clip. -/
def dop853Step (rhs : ℚ → ℚ → ℚ) (t1 : ℚ) (s : OdeState) : OdeState :=
  let h := if t1 < s.t + s.h then t1 - s.t else s.h
  let h2 := h / 2
  let k1 := rhs s.t s.y
  let k2 := rhs (s.t + 1 / 2 * h2) (s.y + 1 / 2 * h2 * k1)
  let k3 := rhs (s.t + 1 / 2 * h2) (s.y + 1 / 2 * h2 * k2)
  let k4 := rhs (s.t + h2) (s.y + h2 * k3)
  let yHalf := s.y + h2 / 6 * (k1 + 2 * k2 + 2 * k3 + k4)
  let k1b := rhs (s.t + h2) yHalf
  let k2b := rhs (s.t + h2 + 1 / 2 * h2) (yHalf + 1 / 2 * h2 * k1b)
  let k3b := rhs (s.t + h2 + 1 / 2 * h2) (yHalf + 1 / 2 * h2 * k2b)
  let k4b := rhs (s.t + h) (yHalf + h2 * k3b)
  ⟨s.t + h, yHalf + h2 / 6 * (k1b + 2 * k2b + 2 * k3b + k4b),
    s.fevals + 8, h⟩

/-- The shared `while (t < t1 - 1e-12)` driver, on fuel. -/
def odeRun (step : OdeState → OdeState) (t1 : ℚ) : ℕ → OdeState → OdeState
  | 0, s => s
  | fuel + 1, s =>
    if s.t < t1 - 1 / 10 ^ 12 then odeRun step t1 fuel (step s) else s

/-- `rk23(h)` returning `{ y, fevals }`; `t0`, `y0`, `t1` are the page inputs
the closure captures. -/
def rk23 (rhs : ℚ → ℚ → ℚ) (t0 y0 t1 h : ℚ) (fuel : ℕ) : ℚ × ℕ :=
  let s := odeRun (rk23Step rhs t1) t1 fuel ⟨t0, y0, 0, h⟩
  (s.y, s.fevals)

/-- `rk45(h)` returning `{ y, fevals }`. -/
def rk45 (rhs : ℚ → ℚ → ℚ) (t0 y0 t1 h : ℚ) (fuel : ℕ) : ℚ × ℕ :=
  let s := odeRun (rk45Step rhs t1) t1 fuel ⟨t0, y0, 0, h⟩
  (s.y, s.fevals)

/-- `dop853(h)` returning `{ y, fevals }`. -/
def dop853 (rhs : ℚ → ℚ → ℚ) (t0 y0 t1 h : ℚ) (fuel : ℕ) : ℚ × ℕ :=
  let s := odeRun (dop853Step rhs t1) t1 fuel ⟨t0, y0, 0, h⟩
  (s.y, s.fevals)

/-! ## LU decomposition page (`LuDecomposition.jsx`)

The page factors `A` once with the external library call `math.lup(A)` and
then, per right-hand side, either calls the external `math.lusolve(LU.A, b)`
("direct each time") or runs its own cached path:
```js
const Pb = LU.p.map(idx => b.get([idx]));
const y = forwardSub(LU.L, Pb);
const x = backSub(LU.U, y);
```
`forwardSub`/`backSub` are repository code and are translated below;
`math.lup`/`math.lusolve` are external library code and are modelled from the
spec. -/

/-- `forwardSub(L, Pb)` from `LuDecomposition.jsx`:
`y[i] = (Pb[i] - Σ_{j<i} L[i][j]·y[j]) / L[i][i]`, filling a zero array in
place.  (JavaScript would produce `Infinity` on a zero diagonal; `ℚ` division
by zero gives `0`, a case the page never reaches since `L` is unit lower
triangular.) -/
def forwardSub (L : List (List ℚ)) (Pb : List ℚ) : List ℚ :=
  (List.range L.length).foldl
    (fun y i =>
      let sum := (List.range i).foldl
        (fun s j => s - getE L i j * y.getD j 0) (Pb.getD i 0)
      y.set i (sum / getE L i i))
    (List.replicate L.length 0)

/-- `backSub(U, y)` from `LuDecomposition.jsx`:
`x[i] = (y[i] - Σ_{j>i} U[i][j]·x[j]) / U[i][i]`, for `i = n-1` down to `0`. -/
def backSub (U : List (List ℚ)) (y : List ℚ) : List ℚ :=
  ((List.range U.length).reverse).foldl
    (fun x i =>
      let sum := (List.range' (i + 1) (U.length - (i + 1))).foldl
        (fun s j => s - getE U i j * x.getD j 0) (y.getD i 0)
      x.set i (sum / getE U i i))
    (List.replicate U.length 0)

/-- The permutation application `LU.p.map(idx => b.get([idx]))`. -/
def applyPerm (p : List ℕ) (b : List ℚ) : List ℚ :=
  p.map fun idx => b.getD idx 0

/-- Index of the largest-magnitude entry of column `k` at or below row `k`
(partial pivoting; the first maximum wins). -/
def pivotIndex (M : List (List ℚ)) (k : ℕ) : ℕ :=
  (List.range' k (M.length - k)).foldl
    (fun best r => if |getE M best k| < |getE M r k| then r else best) k

/-- Swap rows `k` and `r` of a matrix. -/
def swapRows (M : List (List ℚ)) (k r : ℕ) : List (List ℚ) :=
  (M.set k (M.getD r [])).set r (M.getD k [])

/-- Swap entries `k` and `r` of a permutation vector. -/
def swapNat (p : List ℕ) (k r : ℕ) : List ℕ :=
  (p.set k (p.getD r 0)).set r (p.getD k 0)

/-- Eliminate column `k` below the pivot, storing the multipliers in place
(the combined `L\U` working matrix of Doolittle elimination). -/
def elimCol (M : List (List ℚ)) (k : ℕ) : List (List ℚ) :=
  (List.range' (k + 1) (M.length - (k + 1))).foldl
    (fun M2 i =>
      let factor := getE M2 i k / getE M2 k k
      let newRow := (List.range M2.length).map fun j =>
        if j < k then getE M2 i j
        else if j = k then factor
        else getE M2 i j - factor * getE M2 k j
      M2.set i newRow)
    M

/-- One elimination stage: pick the pivot for column `k`, fail on a zero
pivot, else swap and eliminate. -/
def luFactorStep (M : List (List ℚ)) (p : List ℕ) (k : ℕ) :
    Option (List (List ℚ) × List ℕ) :=
  let r := pivotIndex M k
  if getE M r k = 0 then none
  else some (elimCol (swapRows M k r) k, swapNat p k r)

/-- Unit-lower-triangular factor read off the combined working matrix. -/
def extractL (M : List (List ℚ)) : List (List ℚ) :=
  (List.range M.length).map fun i => (List.range M.length).map fun j =>
    if j < i then getE M i j else if j = i then 1 else 0

/-- Upper-triangular factor read off the combined working matrix. -/
def extractU (M : List (List ℚ)) : List (List ℚ) :=
  (List.range M.length).map fun i => (List.range M.length).map fun j =>
    if i ≤ j then getE M i j else 0

/-- Modelled from the spec: `math.lup(A)` is external mathjs library code,
absent from the repository.  Per the spec's `luFactor(A)`: "produces a
row-permutation P, a unit-lower-triangular L, and an upper-triangular U such
that PA = LU, using partial pivoting (select the largest-magnitude entry in
the current column as pivot)...  Fails with `Singular` if any pivot is
(numerically) zero."  The square check mirrors the page's `factorize()`
guard; `none` covers both `Singular` and the non-square throw. -/
def luFactor (A : List (List ℚ)) :
    Option (List (List ℚ) × List (List ℚ) × List ℕ) :=
  if ∀ r ∈ A, r.length = A.length then
    ((List.range A.length).foldlM (fun st k => luFactorStep st.1 st.2 k)
        (A, List.range A.length)).map
      fun st => (extractL st.1, extractU st.1, st.2)
  else none

/-- The cached solve path of `solve()`: permute `b` by `p`, forward- then
back-substitute. -/
def cachedSolve (L U : List (List ℚ)) (p : List ℕ) (b : List ℚ) : List ℚ :=
  backSub U (forwardSub L (applyPerm p b))

/-- Modelled from the spec: `math.lusolve(A, b)` is external mathjs library
code, absent from the repository.  Per the spec's `luSolve`, solving from
scratch factors `A` afresh (partial-pivoting LU) and then "permutes b by P,
performs forward substitution against L then back substitution against U". -/
def lusolve (A : List (List ℚ)) (b : List ℚ) : Option (List ℚ) :=
  (luFactor A).map fun LUp => cachedSolve LUp.1 LUp.2.1 LUp.2.2 b

/-- The "direct each time" loop of `solve()`: `rhsBlocks.map(b => math.lusolve(LU.A, b))`. -/
def directSolutions (A : List (List ℚ)) (bs : List (List ℚ)) :
    List (Option (List ℚ)) :=
  bs.map fun b => lusolve A b

/-- The cached loop of `solve()`: one solution per right-hand side, reusing
the stored factors. -/
def cachedSolutions (L U : List (List ℚ)) (p : List ℕ) (bs : List (List ℚ)) :
    List (List ℚ) :=
  bs.map fun b => cachedSolve L U p b

/-! ## Golden-section search (`ScalarOptimization.jsx`, `scalarSteps`)

```js
const φ = (Math.sqrt(5) - 1) / 2;
let aa = Number(a); let bb = Number(b);
if (aa >= bb) return [];
const log = [];
let c = bb - φ * (bb - aa);
let d = aa + φ * (bb - aa);
while (Math.abs(bb - aa) > tol && log.length < 120) {
  if (f(c) < f(d)) { bb = d; } else { aa = c; }
  c = bb - φ * (bb - aa);
  d = aa + φ * (bb - aa);
  log.push({ i: log.length + 1, a: aa, b: bb, len: bb - aa });
}
```
The constant `φ` is the double-precision value of `(√5 - 1)/2`, an irrational
number no rational equals; the translation takes `φ` as a parameter (the
theorems below assume only `0 < φ < 1`, which the source's constant
satisfies).  `c`/`d` at each loop entry are the interior points of the
current bracket, so the body computes them from `(aa, bb)` directly. -/

/-- One row of the golden-section iteration table. -/
structure GRec where
  i : ℕ
  a : ℚ
  b : ℚ
  len : ℚ
deriving DecidableEq, Repr

/-- Loop body of `scalarSteps`; `cnt` is `log.length`. -/
def goldenGo (f : ℚ → ℚ) (φ tol : ℚ) : ℕ → ℚ → ℚ → ℕ → List GRec
  | 0, _, _, _ => []
  | fuel + 1, aa, bb, cnt =>
    if tol < |bb - aa| ∧ cnt < 120 then
      let c := bb - φ * (bb - aa)
      let d := aa + φ * (bb - aa)
      let aa' := if f c < f d then aa else c
      let bb' := if f c < f d then d else bb
      ⟨cnt + 1, aa', bb', bb' - aa'⟩ :: goldenGo f φ tol fuel aa' bb' (cnt + 1)
    else []

/-- `scalarSteps` from `ScalarOptimization.jsx`: the golden-section iteration
log (empty when `a >= b`).  Fuel `121` exceeds the source's own cap of 120
records, so only the source's conditions stop the loop. -/
def scalarSteps (f : ℚ → ℚ) (φ a b tol : ℚ) : List GRec :=
  if a < b then goldenGo f φ tol 121 a b 0 else []

/-! ## Theorems -/

/-- Claim C1 (amended): in `Algorithms.jsx`'s `newtonRaphson`, whenever
`|f'(xₙ)| < 1e-12` at an iteration, the implementation does not divide by that
derivative: it perturbs `xₙ` by the fixed nudge `1e-3` and continues,
consuming that iteration.  (The other Newton implementation, `runNewton` of
`NewtonRaphson.jsx`, guards only a derivative that is exactly zero or
non-finite, so it does compute steps with `0 < |f'(xₙ)| < 1e-12`; see the
counterexample.) -/
theorem newton_small_derivative_nudges (f df : ℚ → ℚ) (tol x : ℚ) (fuel i : ℕ)
    (hd : |df x| < 1 / 10 ^ 12) :
    newtonGo f df tol (fuel + 1) x i =
      newtonGo f df tol fuel (x + 1 / 1000) (i + 1) := by
  simp only [newtonGo]
  rw [if_pos hd]

/-- Witness for `newton_small_derivative_nudges`: the guard fires at a
concrete input (zero derivative, one remaining iteration) and the call
reduces to the nudged call. -/
theorem newton_small_derivative_nudges_witness :
    |(0 : ℚ)| < 1 / 10 ^ 12 ∧
    newtonGo (fun _ => 1) (fun _ => 0) (1 / 10) (0 + 1) 0 1 =
      newtonGo (fun _ => 1) (fun _ => 0) (1 / 10) 0 (0 + 1 / 1000) (1 + 1) :=
  ⟨by norm_num,
    newton_small_derivative_nudges (fun _ => 1) (fun _ => 0) (1 / 10) 0 0 1
      (by norm_num)⟩

/-- Claim C1 counterexample: `runNewton` (`NewtonRaphson.jsx`) does compute a
Newton step dividing by a derivative with `0 < |f'(xₙ)| < 1e-12`.  With
`f = 1`, `f' = 1e-13`, `x₀ = 0`, `tol = 1/10`, `maxIter = 2`, the second
trace record's iterate is `x₀ - f(x₀)/f'(x₀) = -1e13`: a Newton step, not the
nudge `x₀ + 1e-3` and not a `DerivativeNearZero` stop. -/
theorem runNewton_divides_tiny_derivative_cex :
    runNewton (fun _ => 1) (fun _ => 1 / 10 ^ 13) 0 (1 / 10) 2 =
      [⟨1, 0, 1, 1 / 10 ^ 13, .ok⟩, ⟨2, -(10 ^ 13), 1, 1 / 10 ^ 13, .ok⟩] ∧
    0 < |(1 : ℚ) / 10 ^ 13| ∧ |(1 : ℚ) / 10 ^ 13| < 1 / 10 ^ 12 ∧
    (-(10 ^ 13) : ℚ) = 0 - 1 / (1 / 10 ^ 13) := by
  refine ⟨?_, ?_, ?_, ?_⟩
  · norm_num [runNewton, runNewtonGo]
  · norm_num
  · rw [abs_of_pos (by norm_num : (0 : ℚ) < 1 / 10 ^ 13)]; norm_num
  · norm_num

/-- The `newtonRaphson` loop returns `none` (the `NoConvergence` throw)
exactly when no iterate within its fuel satisfies the step criterion. -/
theorem newtonGo_none_iff (f df : ℚ → ℚ) (tol : ℚ) :
    ∀ (fuel : ℕ) (x : ℚ) (i : ℕ),
      newtonGo f df tol fuel x i = none ↔
        ∀ k < fuel, ¬ nrHits f df tol ((nrNext f df)^[k] x) := by
  intro fuel
  induction fuel with
  | zero => intro x i; simp [newtonGo]
  | succ n ih =>
    intro x i
    by_cases hd : |df x| < 1 / 10 ^ 12
    · have hstep : newtonGo f df tol (n + 1) x i =
          newtonGo f df tol n (x + 1 / 1000) (i + 1) := by
        simp only [newtonGo]; rw [if_pos hd]
      have hnx : nrNext f df x = x + 1 / 1000 := by
        simp only [nrNext]; rw [if_pos hd]
      rw [hstep, ih]
      constructor
      · intro h k hk
        match k with
        | 0 =>
          rw [Function.iterate_zero_apply]
          exact fun hh => hh.1 hd
        | k + 1 =>
          rw [Function.iterate_succ_apply, hnx]
          exact h k (by omega)
      · intro h k hk
        have hh := h (k + 1) (by omega)
        rwa [Function.iterate_succ_apply, hnx] at hh
    · have hnx : nrNext f df x = x - f x / df x := by
        simp only [nrNext]; rw [if_neg hd]
      by_cases hlt : |(x - f x / df x) - x| < tol
      · have hstep : newtonGo f df tol (n + 1) x i =
            some (x - f x / df x, i, |f (x - f x / df x)|) := by
          simp only [newtonGo]; rw [if_neg hd, if_pos hlt]
        rw [hstep]
        constructor
        · intro h; exact absurd h (by simp)
        · intro h
          exact absurd (show nrHits f df tol ((nrNext f df)^[0] x) from ⟨hd, hlt⟩)
            (h 0 (by omega))
      · have hstep : newtonGo f df tol (n + 1) x i =
            newtonGo f df tol n (x - f x / df x) (i + 1) := by
          simp only [newtonGo]; rw [if_neg hd, if_neg hlt]
        rw [hstep, ih]
        constructor
        · intro h k hk
          match k with
          | 0 => exact fun hh => hlt hh.2
          | k + 1 =>
            rw [Function.iterate_succ_apply, hnx]
            exact h k (by omega)
        · intro h k hk
          have hh := h (k + 1) (by omega)
          rwa [Function.iterate_succ_apply, hnx] at hh

/-- Claim C3 (amended): `newtonRaphson` (`Algorithms.jsx`) fails with
`NoConvergence` if and only if the step criterion `|xₙ₊₁ - xₙ| < tol` is not
satisfied at any of the `maxIt` iterations (default 100); an iteration whose
derivative magnitude is below `1e-12` nudges the iterate and satisfies no
criterion.  The function-value criterion `|f(xₙ)| < tol` is not checked by
this implementation. -/
theorem newton_none_iff_step_criterion (f df : ℚ → ℚ) (x0 tol : ℚ) (maxIt : ℕ) :
    newtonRaphson f df x0 tol maxIt = none ↔
      ∀ k < maxIt, ¬ nrHits f df tol ((nrNext f df)^[k] x0) :=
  newtonGo_none_iff f df tol maxIt x0 1

/-- Claim C3 counterexample: a run in which the function-value criterion
`|f(xₙ)| < tol` holds at every iterate (`f` is constantly `1/2` with
`tol = 1`) but `newtonRaphson` with the default `maxIt = 100` still fails
with `NoConvergence` (= `none`), because only the step criterion is checked
and the zero derivative makes every iteration a nudge. -/
theorem newton_no_convergence_cex :
    newtonRaphson (fun _ => (1 : ℚ) / 2) (fun _ => 0) 0 1 100 = none ∧
    |(1 : ℚ) / 2| < 1 := by
  refine ⟨?_, by rw [abs_of_pos (by norm_num : (0 : ℚ) < 1 / 2)]; norm_num⟩
  rw [newtonRaphson]
  exact (newtonGo_none_iff _ _ _ 100 0 1).mpr fun k _ hh => hh.1 (by norm_num)

/-- Claim C8: both bisection implementations require `f(a)·f(b) ≤ 0` and fail
fast on a same-nonzero-sign bracket (`f(a)·f(b) > 0`): the `Bisection.jsx`
page (validation gate plus loop, `bisectChecked`) produces no iteration
record, and `Algorithms.jsx`'s `bisection` throws its sign error before any
iteration. -/
theorem bisect_sign_error_fails_fast (f : ℚ → ℚ) (a b tol : ℚ) (maxIt : ℕ)
    (hsign : 0 < f a * f b) :
    bisectChecked f a b tol = none ∧ bisection f a b tol maxIt = none := by
  constructor
  · simp [bisectChecked, hsign]
  · simp [bisection, hsign]

/-- Witness for `bisect_sign_error_fails_fast`: `f = id` on the bracket
`[1, 2]` has `f(1)·f(2) = 2 > 0`, and both entry points reject it. -/
theorem bisect_sign_error_fails_fast_witness :
    (0 : ℚ) < (fun x : ℚ => x) 1 * (fun x : ℚ => x) 2 ∧
    bisectChecked (fun x : ℚ => x) 1 2 (1 / 100) = none ∧
    bisection (fun x : ℚ => x) 1 2 (1 / 100) 100 = none :=
  ⟨by norm_num,
    bisect_sign_error_fails_fast (fun x : ℚ => x) 1 2 (1 / 100) 100 (by norm_num)⟩

/-- Claim C2 (amended): `GaussSeidel.jsx` treats a failed diagonal-dominance
check as an error that blocks execution, not as a warning: whenever some row
`i` has `|A[i][i]| ≤ Σ_{j≠i} |A[i][j]|`, `runGS` reports the error and
returns before iterating, so no trace and no final vector are produced.
(The `gaussSeidel` of `LinearSystems.jsx` performs no dominance check at
all.) -/
theorem gaussSeidel_dominance_blocks (A : List (List ℚ)) (b : List ℚ)
    (tol : ℚ) (maxIter : ℕ) (hdom : diagDominant A = false) :
    runGS A b tol maxIter = none := by
  simp [runGS, gsValid, hdom]

/-- Witness for `gaussSeidel_dominance_blocks`: the square matrix
`[[1, 2], [3, 1]]` has non-zero diagonal but row 0 fails dominance, and
`runGS` produces nothing. -/
theorem gaussSeidel_dominance_blocks_witness :
    diagDominant [[1, 2], [3, 1]] = false ∧
    runGS [[1, 2], [3, 1]] [1, 1] (1 / 1000) 25 = none :=
  ⟨by norm_num [diagDominant, getE, List.range_succ, List.getD],
    gaussSeidel_dominance_blocks [[1, 2], [3, 1]] [1, 1] (1 / 1000) 25
      (by norm_num [diagDominant, getE, List.range_succ, List.getD])⟩

/-- Claim C2 counterexample: `[[1, 2], [3, 1]]` is square with non-zero
diagonal and row 0 fails dominance (`|1| ≤ |2|`), yet the Gauss–Seidel page
produces no trace and no final vector at all: execution is blocked, so the
check is not a mere warning. -/
theorem gaussSeidel_dominance_blocks_cex :
    runGS [[1, 2], [3, 1]] [1, 1] (1 / 1000) 25 = none ∧
    getE [[1, 2], [3, 1]] 0 0 ≠ 0 ∧ getE [[1, 2], [3, 1]] 1 1 ≠ 0 ∧
    |getE [[1, 2], [3, 1]] 0 0| ≤ |getE [[1, 2], [3, 1]] 0 1| := by
  refine ⟨?_, by norm_num [getE, List.getD], by norm_num [getE, List.getD],
    by norm_num [getE, List.getD]⟩
  have h : gsValid [[1, 2], [3, 1]] [1, 1] = false := by
    norm_num [gsValid, diagDominant, getE, List.range_succ, List.getD]
  simp [runGS, h]

/-- The iteration counter of the `gaussSeidel` loop never decreases. -/
theorem gaussSeidelGo_le_used (A : List (List ℚ)) (b : List ℚ) (tol : ℚ) :
    ∀ (fuel : ℕ) (x : List ℚ) (used : ℕ),
      used ≤ (gaussSeidelGo A b tol fuel x used).2 := by
  intro fuel
  induction fuel with
  | zero => intro x used; simp [gaussSeidelGo]
  | succ n ih =>
    intro x used
    rw [gaussSeidelGo]
    split
    · simp
    · exact le_trans (Nat.le_succ used) (ih _ (used + 1))

/-- The final vector of the `gaussSeidel` loop is the sweep iterated as many
times as the loop reports having swept. -/
theorem gaussSeidelGo_iterate (A : List (List ℚ)) (b : List ℚ) (tol : ℚ) :
    ∀ (fuel : ℕ) (x : List ℚ) (used : ℕ),
      (gaussSeidelGo A b tol fuel x used).1 =
        (gsSweep A b)^[(gaussSeidelGo A b tol fuel x used).2 - used] x := by
  intro fuel
  induction fuel with
  | zero => intro x used; simp [gaussSeidelGo]
  | succ n ih =>
    intro x used
    rw [gaussSeidelGo]
    split
    · simp [Nat.add_sub_cancel_left, Nat.succ_sub]
    · have hle := gaussSeidelGo_le_used A b tol n (gsSweep A b x) (used + 1)
      rw [ih]
      have harith : (gaussSeidelGo A b tol n (gsSweep A b x) (used + 1)).2 - used =
          ((gaussSeidelGo A b tol n (gsSweep A b x) (used + 1)).2 - (used + 1)) + 1 := by
        omega
      rw [harith, Function.iterate_succ_apply]

/-- Every record of the `runGS` loop is the sweep iterated from the start
vector, with consecutive counter values. -/
theorem runGSGo_records (A : List (List ℚ)) (b : List ℚ) (tol : ℚ) :
    ∀ (fuel : ℕ) (x : List ℚ) (k : ℕ),
      runGSGo A b tol fuel x k =
        (List.range (runGSGo A b tol fuel x k).length).map fun j =>
          ⟨k + j, (gsSweep A b)^[j + 1] x,
            residualSq A b ((gsSweep A b)^[j + 1] x)⟩ := by
  intro fuel
  induction fuel with
  | zero => intro x k; simp [runGSGo]
  | succ n ih =>
    intro x k
    rw [runGSGo]
    split
    · simp [List.range_succ]
    · rw [List.length_cons, List.range_succ_eq_map, List.map_cons, List.map_map]
      refine congrArg₂ List.cons ?_ ?_
      · simp
      · conv_lhs => rw [ih (gsSweep A b x) (k + 1)]
        refine List.map_congr_left fun j _ => ?_
        simp only [Function.comp_apply, Function.iterate_succ_apply]
        have : k + (j + 1) = k + 1 + j := by omega
        rw [this]

/-- Claim C10: every Gauss–Seidel solve starts from the fixed initial guess
`x = 0` (the zero vector of the matrix dimension) and no initial guess can be
supplied, so the iterate sequence and the final vector are fully determined
by `(A, b, tol, maxIter)`: the final vector of `LinearSystems.jsx`'s
`gaussSeidel` is the in-place sweep iterated (as often as the reported
iteration count) on the zero vector, and every record of a `runGS` trace is
the sweep iterated on the zero vector with consecutive counters. -/
theorem gaussSeidel_zero_initial_guess (A : List (List ℚ)) (b : List ℚ)
    (tol : ℚ) (maxIter : ℕ) :
    (gaussSeidel A b tol maxIter).1 =
      (gsSweep A b)^[(gaussSeidel A b tol maxIter).2]
        (List.replicate A.length 0) ∧
    ∀ L, runGS A b tol maxIter = some L →
      L = (List.range L.length).map fun k =>
        ⟨k + 1, (gsSweep A b)^[k + 1] (List.replicate A.length 0),
          residualSq A b ((gsSweep A b)^[k + 1] (List.replicate A.length 0))⟩ := by
  constructor
  · have h := gaussSeidelGo_iterate A b tol maxIter (List.replicate A.length 0) 0
    rw [gaussSeidel]
    simpa using h
  · intro L hL
    rw [runGS] at hL
    by_cases hv : gsValid A b
    · rw [if_pos hv] at hL
      have hL' := Option.some.inj hL
      subst hL'
      have h := runGSGo_records A b tol maxIter (List.replicate A.length 0) 1
      conv_lhs => rw [h]
      refine List.map_congr_left fun j _ => ?_
      rw [Nat.add_comm 1 j]
    · rw [if_neg hv] at hL
      exact absurd hL (by simp)

/-- The bracket trajectory starts at the input bracket. -/
theorem brk_zero (f : ℚ → ℚ) (aa bb : ℚ) : brk f aa bb 0 = (aa, bb) := rfl

/-- Stepping the start of the trajectory once shifts its index by one. -/
theorem brk_shift (f : ℚ → ℚ) (aa bb : ℚ) (k : ℕ) :
    brk f (nextBracket f (aa, bb)).1 (nextBracket f (aa, bb)).2 k =
      brk f aa bb (k + 1) := by
  rw [brk, brk, Function.iterate_succ_apply]

/-- Full characterization of the `runBisection` loop, for every loop state
reachable from the entry state (`fuel + i = 102` pins the fuel to the
iteration counter as `runBisection` does): at most `101 - i` further records;
each record `k` is the midpoint record of the bracket trajectory with
consecutive indices; a step runs only while the guard held and no earlier
midpoint was a root; and an early stop means the half-width test or a zero
midpoint caused it. -/
theorem bisectGo_chars (f : ℚ → ℚ) (tol : ℚ) :
    ∀ (fuel i : ℕ) (aa bb : ℚ), fuel + i = 102 →
      (bisectGo f tol fuel i aa bb).length ≤ 101 - i ∧
      (∀ (k : ℕ) (hk : k < (bisectGo f tol fuel i aa bb).length),
        (bisectGo f tol fuel i aa bb).get ⟨k, hk⟩ =
          ⟨i + k, (brk f aa bb k).1, (brk f aa bb k).2, midpt (brk f aa bb k),
            f (midpt (brk f aa bb k))⟩) ∧
      (∀ k < (bisectGo f tol fuel i aa bb).length,
        tol < ((brk f aa bb k).2 - (brk f aa bb k).1) / 2 ∧
        ∀ j < k, f (midpt (brk f aa bb j)) ≠ 0) ∧
      ((bisectGo f tol fuel i aa bb).length < 101 - i →
        ((brk f aa bb (bisectGo f tol fuel i aa bb).length).2 -
            (brk f aa bb (bisectGo f tol fuel i aa bb).length).1) / 2 ≤ tol ∨
        (0 < (bisectGo f tol fuel i aa bb).length ∧
          f (midpt (brk f aa bb
            ((bisectGo f tol fuel i aa bb).length - 1))) = 0)) := by
  intro fuel
  induction fuel with
  | zero =>
    intro i aa bb hfi
    have hi : i = 102 := by omega
    subst hi
    refine ⟨by simp [bisectGo], by simp [bisectGo], by simp [bisectGo], ?_⟩
    intro hlen
    exact absurd hlen (by simp [bisectGo])
  | succ n ih =>
    intro i aa bb hfi
    by_cases hg : i ≤ 100 ∧ tol < (bb - aa) / 2
    · have hunf : bisectGo f tol (n + 1) i aa bb =
          (if f ((aa + bb) / 2) = 0 then
            [⟨i, aa, bb, (aa + bb) / 2, f ((aa + bb) / 2)⟩]
          else if f aa * f ((aa + bb) / 2) < 0 then
            ⟨i, aa, bb, (aa + bb) / 2, f ((aa + bb) / 2)⟩ ::
              bisectGo f tol n (i + 1) aa ((aa + bb) / 2)
          else
            ⟨i, aa, bb, (aa + bb) / 2, f ((aa + bb) / 2)⟩ ::
              bisectGo f tol n (i + 1) ((aa + bb) / 2) bb) := by
        simp only [bisectGo]
        rw [if_pos hg]
      by_cases hfc : f ((aa + bb) / 2) = 0
      · rw [hunf, if_pos hfc]
        refine ⟨by simpa using by omega, ?_, ?_, ?_⟩
        · intro k hk
          have hk0 : k = 0 := by simpa using hk
          subst hk0
          simp [brk_zero, midpt]
        · intro k hk
          have hk0 : k = 0 := by simpa using hk
          subst hk0
          exact ⟨by simpa [brk_zero] using hg.2, by omega⟩
        · intro _
          right
          exact ⟨by simp, by simpa [brk_zero, midpt] using hfc⟩
      · have hsplit : bisectGo f tol (n + 1) i aa bb =
            ⟨i, aa, bb, (aa + bb) / 2, f ((aa + bb) / 2)⟩ ::
              bisectGo f tol n (i + 1) (nextBracket f (aa, bb)).1
                (nextBracket f (aa, bb)).2 := by
          rw [hunf, if_neg hfc]
          by_cases hs : f aa * f ((aa + bb) / 2) < 0
          · rw [if_pos hs]
            simp [nextBracket, hs]
          · rw [if_neg hs]
            simp [nextBracket, hs]
        obtain ⟨ih1, ih2, ih3, ih4⟩ :=
          ih (i + 1) (nextBracket f (aa, bb)).1 (nextBracket f (aa, bb)).2
            (by omega)
        simp only [brk_shift] at ih1 ih2 ih3 ih4
        rw [hsplit]
        refine ⟨?_, ?_, ?_, ?_⟩
        · have := ih1
          simp only [List.length_cons]
          omega
        · intro k hk
          match k with
          | 0 => simp [brk_zero, midpt]
          | k + 1 =>
            have hk' : k < (bisectGo f tol n (i + 1) (nextBracket f (aa, bb)).1
                (nextBracket f (aa, bb)).2).length := by
              simpa using hk
            have := ih2 k hk'
            rw [List.get_cons_succ, this]
            have harith : i + 1 + k = i + (k + 1) := by omega
            rw [harith]
        · intro k hk
          match k with
          | 0 =>
            exact ⟨by simpa [brk_zero] using hg.2, by omega⟩
          | k + 1 =>
            have hk' : k < (bisectGo f tol n (i + 1) (nextBracket f (aa, bb)).1
                (nextBracket f (aa, bb)).2).length := by
              simpa using hk
            refine ⟨(ih3 k hk').1, ?_⟩
            intro j hj
            match j with
            | 0 => simpa [brk_zero, midpt] using hfc
            | j + 1 => exact (ih3 k hk').2 j (by omega)
        · intro hlen
          have hlen' : (bisectGo f tol n (i + 1) (nextBracket f (aa, bb)).1
              (nextBracket f (aa, bb)).2).length < 101 - (i + 1) := by
            have hi100 : i ≤ 100 := hg.1
            simp only [List.length_cons] at hlen
            omega
          rcases ih4 hlen' with hwidth | ⟨hpos, hzero⟩
          · left
            simpa using hwidth
          · right
            refine ⟨by simp, ?_⟩
            have harith : (⟨i, aa, bb, (aa + bb) / 2, f ((aa + bb) / 2)⟩ ::
                bisectGo f tol n (i + 1) (nextBracket f (aa, bb)).1
                  (nextBracket f (aa, bb)).2).length - 1 =
                ((bisectGo f tol n (i + 1) (nextBracket f (aa, bb)).1
                  (nextBracket f (aa, bb)).2).length - 1) + 1 := by
              simp only [List.length_cons]
              omega
            rw [harith]
            exact hzero
    · have hunf : bisectGo f tol (n + 1) i aa bb = [] := by
        simp only [bisectGo]
        rw [if_neg hg]
      rw [hunf]
      refine ⟨by simp, by simp, by simp, ?_⟩
      intro hlen
      rcases not_and_or.mp hg with h1 | h2
      · exact absurd hlen (by simp; omega)
      · left
        simpa [brk_zero] using le_of_not_lt h2

/-- Claim C4 (amended): for every input (in particular every valid bracket
with `f(a)·f(b) ≤ 0`), each `runBisection` step computes the midpoint
`c = (a+b)/2` of the current bracket, appends the record `(i, a, b, c, f(c))`
with consecutive indices starting at 1, and replaces the bound whose function
value shares the sign of `f(c)` (the `nextBracket` trajectory); the loop
terminates exactly when `(b-a)/2 ≤ tol` (checked before each step — at
`(b-a)/2 = tol` it already stops), or `f(c) = 0` (after recording), or 100
iterations have run (the cap is hard-coded, not a `maxIter` parameter). -/
theorem bisection_trace_characterization (f : ℚ → ℚ) (a b tol : ℚ) :
    (runBisection f a b tol).length ≤ 100 ∧
    (∀ (k : ℕ) (hk : k < (runBisection f a b tol).length),
      (runBisection f a b tol).get ⟨k, hk⟩ =
        ⟨k + 1, (brk f a b k).1, (brk f a b k).2, midpt (brk f a b k),
          f (midpt (brk f a b k))⟩) ∧
    (∀ k < (runBisection f a b tol).length,
      tol < ((brk f a b k).2 - (brk f a b k).1) / 2 ∧
      ∀ j < k, f (midpt (brk f a b j)) ≠ 0) ∧
    ((runBisection f a b tol).length < 100 →
      ((brk f a b (runBisection f a b tol).length).2 -
          (brk f a b (runBisection f a b tol).length).1) / 2 ≤ tol ∨
      (0 < (runBisection f a b tol).length ∧
        f (midpt (brk f a b ((runBisection f a b tol).length - 1))) = 0)) := by
  obtain ⟨h1, h2, h3, h4⟩ := bisectGo_chars f tol 101 1 a b (by norm_num)
  rw [runBisection]
  have h100 : (101 : ℕ) - 1 = 100 := by norm_num
  rw [h100] at h1 h4
  refine ⟨h1, ?_, h3, h4⟩
  intro k hk
  rw [h2 k hk, Nat.add_comm 1 k]

/-- Claim C4 counterexample: on the valid bracket `f(x) = x - 1/3`, `a = 0`,
`b = 2` with `tol = 1`, we have `(b-a)/2 = tol` exactly: the loop terminates
immediately with an empty trace although none of the claim's three
termination conditions — `(b-a)/2 < tol` (strict), a found root `f(c) = 0`,
or the index reaching 100 — holds. -/
theorem bisection_terminates_at_tol_cex :
    runBisection (fun x : ℚ => x - 1 / 3) 0 2 1 = [] ∧
    ¬ ((2 : ℚ) - 0) / 2 < 1 ∧
    (fun x : ℚ => x - 1 / 3) 0 * (fun x : ℚ => x - 1 / 3) 2 ≤ 0 := by
  refine ⟨?_, by norm_num, by norm_num⟩
  rw [runBisection, show (101 : ℕ) = 100 + 1 from rfl, bisectGo]
  rw [if_neg (by norm_num : ¬ ((1 : ℕ) ≤ 100 ∧ (1 : ℚ) < ((2 : ℚ) - 0) / 2))]

/-- The Simpson accumulation loop as an initial value plus a mapped sum. -/
theorem simpson_foldl_sum (f : ℚ → ℚ) (a h : ℚ) (c : ℚ) (l : List ℕ) :
    l.foldl
      (fun (s : ℚ) (i : ℕ) => s + (if i % 2 = 0 then 2 else 4) * f (a + (i : ℚ) * h)) c
      = c + (l.map fun i : ℕ =>
          (if i % 2 = 0 then (2 : ℚ) else 4) * f (a + (i : ℚ) * h)).sum := by
  induction l generalizing c with
  | nil => simp
  | cons x l ihl =>
    simp only [List.foldl_cons, List.map_cons, List.sum_cons, ihl]
    ring

/-- Claim C5 (amended): for every `a < b`, the Simpson page computes
`(h/3)*Sum(weight*f(x_i))` with `h = (b-a)/n`, sample points `x_i = a + i*h`
and the spec's weights (1 at the two endpoints, 4 at odd interior indices,
2 at even interior indices) when `n` is a positive even integer, and fails
with `InvalidPartition`, computing no result, when `a < b` but `n` is not
positive and even.  When `a >= b` the bounds error is reported instead,
whatever `n` is — see the counterexample. -/
theorem simpson_value_and_partition_error (f : ℚ → ℚ) (a b : ℚ) (n : ℤ)
    (hab : a < b) :
    runSimpson f a b n =
      if 0 < n ∧ n % 2 = 0 then Except.ok (specSimpson f a b n)
      else Except.error SimpErr.invalidPartition := by
  rw [runSimpson, if_neg (by simpa using hab)]
  by_cases hn : 0 < n ∧ n % 2 = 0
  · rw [if_neg (by simpa using hn), if_pos hn]
    refine congrArg Except.ok ?_
    rw [specSimpson]
    obtain ⟨m, hm⟩ : ∃ m, n.toNat = m + 1 := by
      have h0 : 0 < n.toNat := by omega
      exact ⟨n.toNat - 1, by omega⟩
    have hne : (n : ℚ) ≠ 0 := by exact_mod_cast ne_of_gt hn.1
    have hb : a + ((n.toNat : ℕ) : ℚ) * ((b - a) / (n : ℚ)) = b := by
      have hcast : ((n.toNat : ℕ) : ℚ) = (n : ℚ) := by
        have := Int.toNat_of_nonneg (le_of_lt hn.1)
        exact_mod_cast congrArg (Int.cast : ℤ → ℚ) this
      rw [hcast]; field_simp
    congr 1
    rw [simpson_foldl_sum, hm]
    rw [hm] at hb
    rw [List.range_succ (m + 1), List.range_succ_eq_map m]
    rw [List.drop_one, List.tail_cons]
    rw [List.map_append, List.map_cons, List.map_cons, List.map_nil,
      List.sum_append, List.sum_cons, List.sum_cons, List.sum_nil]
    rw [List.map_map, List.map_map]
    have hmap : (List.range m).map
        ((fun i : ℕ => (if i % 2 = 0 then (2 : ℚ) else 4) *
          f (a + (i : ℚ) * ((b - a) / (n : ℚ)))) ∘ Nat.succ) =
      (List.range m).map
        ((fun i : ℕ => simpsonWeight (m + 1) i *
          f (a + (i : ℚ) * ((b - a) / (n : ℚ)))) ∘ Nat.succ) := by
      refine List.map_congr_left fun j hj => ?_
      have hjm : j < m := List.mem_range.mp hj
      simp only [Function.comp_apply]
      have hw : simpsonWeight (m + 1) (Nat.succ j) =
          if Nat.succ j % 2 = 0 then 2 else 4 := by
        rw [simpsonWeight]
        rw [if_neg (by omega : ¬(Nat.succ j = 0 ∨ Nat.succ j = m + 1))]
        rcases Nat.mod_two_eq_zero_or_one (Nat.succ j) with hmod | hmod
        · rw [if_neg (by omega), if_pos hmod]
        · rw [if_pos hmod, if_neg (by omega)]
      rw [hw]
    rw [hmap]
    have hW0 : simpsonWeight (m + 1) 0 = 1 := by simp [simpsonWeight]
    have hWn : simpsonWeight (m + 1) (m + 1) = 1 := by simp [simpsonWeight]
    simp only [hW0, hWn, Nat.cast_zero, zero_mul, add_zero, one_mul]
    rw [hb]
    ring
  · rw [if_pos (by simpa using hn), if_neg hn]

/-- Claim C5 counterexample: with `a = 1 > 0 = b` and the odd partition count
`n = 3`, the page fails with the bounds error, not with `InvalidPartition`:
the claim's "for n not positive and even it fails with InvalidPartition" does
not hold when the bounds are also invalid, because the bounds check runs
first. -/
theorem simpson_bounds_error_cex :
    runSimpson (fun x : ℚ => x) 1 0 3 = Except.error SimpErr.invalidBounds ∧
    SimpErr.invalidBounds ≠ SimpErr.invalidPartition := by
  refine ⟨?_, by decide⟩
  rw [runSimpson, if_pos (by norm_num)]

/-- Witness for `simpson_value_and_partition_error`: the hypothesis `a < b`
holds at `a = 0 < 1 = b` (with `n = 2`). -/
theorem simpson_value_and_partition_error_witness :
    (0 : ℚ) < 1 ∧
    (runSimpson (fun x : ℚ => x) 0 1 2 =
      if 0 < (2 : ℤ) ∧ (2 : ℤ) % 2 = 0 then
        Except.ok (specSimpson (fun x : ℚ => x) 0 1 2)
      else Except.error SimpErr.invalidPartition) :=
  ⟨by norm_num,
    simpson_value_and_partition_error (fun x : ℚ => x) 0 1 2 (by norm_num)⟩

/-- The time reached by one `rk23` step: the current time plus the
(possibly clipped) step. -/
theorem rk23Step_t (rhs : ℚ → ℚ → ℚ) (t1 : ℚ) (s : OdeState) :
    (rk23Step rhs t1 s).t = s.t + (if t1 < s.t + s.h then t1 - s.t else s.h) :=
  rfl

/-- The time reached by one `rk45` step. -/
theorem rk45Step_t (rhs : ℚ → ℚ → ℚ) (t1 : ℚ) (s : OdeState) :
    (rk45Step rhs t1 s).t = s.t + (if t1 < s.t + s.h then t1 - s.t else s.h) :=
  rfl

/-- The time reached by one `dop853` step. -/
theorem dop853Step_t (rhs : ℚ → ℚ → ℚ) (t1 : ℚ) (s : OdeState) :
    (dop853Step rhs t1 s).t = s.t + (if t1 < s.t + s.h then t1 - s.t else s.h) :=
  rfl

/-- Adding the clipped step never passes `t1`. -/
theorem clip_le (t1 t h : ℚ) (ht : t ≤ t1) :
    t + (if t1 < t + h then t1 - t else h) ≤ t1 := by
  by_cases hc : t1 < t + h
  · rw [if_pos hc]; linarith
  · rw [if_neg hc]; linarith [not_lt.mp hc]

/-- Adding the clipped step lands exactly on `t1` when the raw step would
overshoot. -/
theorem clip_eq (t1 t h : ℚ) (hc : t1 < t + h) :
    t + (if t1 < t + h then t1 - t else h) = t1 := by
  rw [if_pos hc]; ring

/-- The `while (t < t1 - 1e-12)` driver preserves any `t`-invariant its step
preserves. -/
theorem odeRun_t_le (step : OdeState → OdeState) (t1 : ℚ)
    (hstep : ∀ s : OdeState, s.t ≤ t1 → (step s).t ≤ t1) :
    ∀ (fuel : ℕ) (s : OdeState), s.t ≤ t1 → (odeRun step t1 fuel s).t ≤ t1 := by
  intro fuel
  induction fuel with
  | zero => intro s hs; simpa [odeRun] using hs
  | succ n ih =>
    intro s hs
    rw [odeRun]
    split
    · exact ih _ (hstep s hs)
    · exact hs

/-- Claim C6: in each of the three ODE solvers (`rk23`, `rk45`, `dop853`),
the time variable never exceeds `t1`: from any state with `t ≤ t1`, a single
step stays at or below `t1`; whenever `t + h` would overshoot, the step is
clipped to `h = t1 - t` and lands exactly on `t1`; and the full driver loop
(hence every intermediate state and the returned final state) stays at or
below `t1`, for any amount of fuel. -/
theorem ode_no_overshoot (rhs : ℚ → ℚ → ℚ) (t1 : ℚ) (s : OdeState) (fuel : ℕ)
    (ht : s.t ≤ t1) :
    ((rk23Step rhs t1 s).t ≤ t1 ∧ (rk45Step rhs t1 s).t ≤ t1 ∧
      (dop853Step rhs t1 s).t ≤ t1) ∧
    (t1 < s.t + s.h →
      (rk23Step rhs t1 s).t = t1 ∧ (rk45Step rhs t1 s).t = t1 ∧
        (dop853Step rhs t1 s).t = t1) ∧
    ((odeRun (rk23Step rhs t1) t1 fuel s).t ≤ t1 ∧
      (odeRun (rk45Step rhs t1) t1 fuel s).t ≤ t1 ∧
      (odeRun (dop853Step rhs t1) t1 fuel s).t ≤ t1) := by
  refine ⟨⟨?_, ?_, ?_⟩, fun hc => ⟨?_, ?_, ?_⟩, ?_, ?_, ?_⟩
  · rw [rk23Step_t]; exact clip_le t1 s.t s.h ht
  · rw [rk45Step_t]; exact clip_le t1 s.t s.h ht
  · rw [dop853Step_t]; exact clip_le t1 s.t s.h ht
  · rw [rk23Step_t]; exact clip_eq t1 s.t s.h hc
  · rw [rk45Step_t]; exact clip_eq t1 s.t s.h hc
  · rw [dop853Step_t]; exact clip_eq t1 s.t s.h hc
  · exact odeRun_t_le _ t1
      (fun s' hs' => by rw [rk23Step_t]; exact clip_le t1 s'.t s'.h hs') fuel s ht
  · exact odeRun_t_le _ t1
      (fun s' hs' => by rw [rk45Step_t]; exact clip_le t1 s'.t s'.h hs') fuel s ht
  · exact odeRun_t_le _ t1
      (fun s' hs' => by rw [dop853Step_t]; exact clip_le t1 s'.t s'.h hs') fuel s ht

/-- Witness for `ode_no_overshoot`: the page's default problem
`dy/dt = y - t² + 1` on `[0, 2]` from the state `(t, y, fevals, h) =
(0, 1/2, 0, 1/20)`, which satisfies `t ≤ t1`. -/
theorem ode_no_overshoot_witness :
    ((rk23Step (fun t y => y - t ^ 2 + 1) 2 ⟨0, 1 / 2, 0, 1 / 20⟩).t ≤ 2 ∧
      (rk45Step (fun t y => y - t ^ 2 + 1) 2 ⟨0, 1 / 2, 0, 1 / 20⟩).t ≤ 2 ∧
      (dop853Step (fun t y => y - t ^ 2 + 1) 2 ⟨0, 1 / 2, 0, 1 / 20⟩).t ≤ 2) ∧
    ((2 : ℚ) < (OdeState.mk 0 (1 / 2) 0 (1 / 20)).t +
        (OdeState.mk 0 (1 / 2) 0 (1 / 20)).h →
      (rk23Step (fun t y => y - t ^ 2 + 1) 2 ⟨0, 1 / 2, 0, 1 / 20⟩).t = 2 ∧
        (rk45Step (fun t y => y - t ^ 2 + 1) 2 ⟨0, 1 / 2, 0, 1 / 20⟩).t = 2 ∧
        (dop853Step (fun t y => y - t ^ 2 + 1) 2 ⟨0, 1 / 2, 0, 1 / 20⟩).t = 2) ∧
    ((odeRun (rk23Step (fun t y => y - t ^ 2 + 1) 2) 2 5
        ⟨0, 1 / 2, 0, 1 / 20⟩).t ≤ 2 ∧
      (odeRun (rk45Step (fun t y => y - t ^ 2 + 1) 2) 2 5
        ⟨0, 1 / 2, 0, 1 / 20⟩).t ≤ 2 ∧
      (odeRun (dop853Step (fun t y => y - t ^ 2 + 1) 2) 2 5
        ⟨0, 1 / 2, 0, 1 / 20⟩).t ≤ 2) :=
  ode_no_overshoot (fun t y => y - t ^ 2 + 1) 2 ⟨0, 1 / 2, 0, 1 / 20⟩ 5
    (by norm_num)

/-- Claim C7: for one fixed LU factorization of `A` and every supplied set of
right-hand sides, the cached path (permute each `b` by `P`, forward
substitution against `L`, back substitution against `U`) produces, for each
`b`, the same solution vector as solving that system independently from
scratch with the direct solver (which factors `A` afresh and substitutes):
in exact arithmetic the two per-`b` loops of `solve()` agree exactly. -/
theorem lu_cached_eq_direct (A L U : List (List ℚ)) (p : List ℕ)
    (bs : List (List ℚ)) (hf : luFactor A = some (L, U, p)) :
    directSolutions A bs = (cachedSolutions L U p bs).map some := by
  rw [directSolutions, cachedSolutions, List.map_map]
  refine List.map_congr_left fun b _ => ?_
  rw [Function.comp_apply, lusolve, hf, Option.map_some']

/-- Witness for `lu_cached_eq_direct`: the page's default matrix
`A = [[4,1,2],[3,5,1],[1,1,3]]` and its default two right-hand sides
`b = 4 7 3 | 2 1 5`, with the concrete factorization `PA = LU`. -/
theorem lu_cached_eq_direct_witness :
    luFactor [[4, 1, 2], [3, 5, 1], [1, 1, 3]] =
      some ([[1, 0, 0], [3 / 4, 1, 0], [1 / 4, 3 / 17, 1]],
            [[4, 1, 2], [0, 17 / 4, -(1 / 2)], [0, 0, 44 / 17]], [0, 1, 2]) ∧
    directSolutions [[4, 1, 2], [3, 5, 1], [1, 1, 3]] [[4, 7, 3], [2, 1, 5]] =
      (cachedSolutions [[1, 0, 0], [3 / 4, 1, 0], [1 / 4, 3 / 17, 1]]
        [[4, 1, 2], [0, 17 / 4, -(1 / 2)], [0, 0, 44 / 17]] [0, 1, 2]
        [[4, 7, 3], [2, 1, 5]]).map some := by
  have hf : luFactor [[4, 1, 2], [3, 5, 1], [1, 1, 3]] =
      some ([[1, 0, 0], [3 / 4, 1, 0], [1 / 4, 3 / 17, 1]],
            [[4, 1, 2], [0, 17 / 4, -(1 / 2)], [0, 0, 44 / 17]], [0, 1, 2]) := by
    have h1 : |(17 : ℚ) / 4| = 17 / 4 := abs_of_nonneg (by norm_num)
    have h2 : |(3 : ℚ) / 4| = 3 / 4 := abs_of_nonneg (by norm_num)
    norm_num [luFactor, luFactorStep, pivotIndex, swapRows, swapNat, elimCol,
      extractL, extractU, getE, List.range_succ, List.getD, List.foldlM_cons,
      List.foldlM_nil, List.range', Option.bind_eq_bind, Option.some_bind,
      h1, h2]
  exact ⟨hf, lu_cached_eq_direct _ _ _ _ [[4, 7, 3], [2, 1, 5]] hf⟩

/-- Invariants of the golden-section loop, from any reachable loop state
with a non-degenerate bracket: at most `120 - cnt` further records, every
recorded length positive, the first recorded length is the entry bracket
shrunk once by `φ`, consecutive recorded lengths shrink by exactly `φ` and
strictly decrease, every non-final record still exceeded `tol`, and the loop
ran at all only if the entry bracket exceeded `tol`. -/
theorem goldenGo_spec (f : ℚ → ℚ) (φ tol : ℚ) (hphi0 : 0 < φ) (hphi1 : φ < 1) :
    ∀ (fuel : ℕ) (aa bb : ℚ) (cnt : ℕ), aa < bb →
      (goldenGo f φ tol fuel aa bb cnt).length ≤ 120 - cnt ∧
      (∀ r ∈ goldenGo f φ tol fuel aa bb cnt, 0 < r.len) ∧
      (∀ r, (goldenGo f φ tol fuel aa bb cnt).head? = some r →
        r.len = φ * (bb - aa)) ∧
      List.Chain' (fun r r' : GRec => r'.len = φ * r.len ∧ r'.len < r.len)
        (goldenGo f φ tol fuel aa bb cnt) ∧
      (∀ r ∈ (goldenGo f φ tol fuel aa bb cnt).dropLast, tol < r.len) ∧
      (goldenGo f φ tol fuel aa bb cnt ≠ [] → tol < bb - aa) := by
  intro fuel
  induction fuel with
  | zero =>
    intro aa bb cnt hab
    refine ⟨by simp [goldenGo], by simp [goldenGo], by simp [goldenGo],
      by simp [goldenGo], by simp [goldenGo], by simp [goldenGo]⟩
  | succ n ih =>
    intro aa bb cnt hab
    by_cases hg : tol < |bb - aa| ∧ cnt < 120
    · have habs : |bb - aa| = bb - aa := abs_of_pos (by linarith)
      obtain ⟨A, B, hunf, hlen, hab2⟩ :
          ∃ A B, goldenGo f φ tol (n + 1) aa bb cnt =
            (⟨cnt + 1, A, B, B - A⟩ : GRec) ::
              goldenGo f φ tol n A B (cnt + 1) ∧
            B - A = φ * (bb - aa) ∧ A < B := by
        have hw : 0 < φ * (bb - aa) := mul_pos hphi0 (by linarith)
        by_cases hfd : f (bb - φ * (bb - aa)) < f (aa + φ * (bb - aa))
        · refine ⟨aa, aa + φ * (bb - aa), ?_, by ring, by linarith⟩
          simp only [goldenGo]
          rw [if_pos hg, if_pos hfd, if_pos hfd]
        · refine ⟨bb - φ * (bb - aa), bb, ?_, by ring, by linarith⟩
          simp only [goldenGo]
          rw [if_pos hg, if_neg hfd, if_neg hfd]
      obtain ⟨ih1, ih2, ih3, ih4, ih5, ih6⟩ := ih A B (cnt + 1) hab2
      have hw2 : 0 < B - A := by linarith [mul_pos hphi0 (show (0:ℚ) < bb - aa by linarith)]
      rw [hunf]
      refine ⟨?_, ?_, ?_, ?_, ?_, ?_⟩
      · simp only [List.length_cons]
        have h120 := hg.2
        omega
      · intro r hr
        rcases List.mem_cons.mp hr with rfl | hr'
        · exact hw2
        · exact ih2 r hr'
      · intro r hr
        rw [List.head?_cons] at hr
        rw [← Option.some.inj hr, hlen]
      · rw [List.chain'_cons']
        refine ⟨?_, ih4⟩
        intro y hy
        have h3 := ih3 y (Option.mem_def.mp hy)
        constructor
        · exact h3
        · have : φ * (B - A) < 1 * (B - A) := mul_lt_mul_of_pos_right hphi1 hw2
          show y.len < B - A
          rw [h3]; linarith
      · rcases eq_or_ne (goldenGo f φ tol n A B (cnt + 1)) [] with h0 | h0
        · simp [h0]
        · rw [List.dropLast_cons_of_ne_nil h0]
          intro r hr
          rcases List.mem_cons.mp hr with rfl | hr'
          · have := ih6 h0
            show tol < B - A
            linarith
          · exact ih5 r hr'
      · intro _
        rw [← habs]
        exact hg.1
    · have hunf : goldenGo f φ tol (n + 1) aa bb cnt = [] := by
        simp only [goldenGo]
        rw [if_neg hg]
      rw [hunf]
      exact ⟨by simp, by simp, by simp, by simp, by simp, by simp⟩

/-- Claim C9: for every `a < b` (and any shrink factor `0 < φ < 1`; the
source's constant is the double-precision value of `(√5-1)/2 ≈ 0.618`, which
lies in that range), golden-section search monotonically shrinks the bracket:
each recorded bracket length `|b-a|` is exactly `φ` times the previous one
and strictly smaller; the iteration stops once `|b-a| ≤ tol` (every record
except possibly the last still exceeded `tol`) or at the fixed cap of 120
iterations — the trace never exceeds 120 records, so the search never
diverges. -/
theorem goldenSection_shrinks (f : ℚ → ℚ) (φ a b tol : ℚ)
    (hphi0 : 0 < φ) (hphi1 : φ < 1) (hab : a < b) :
    (scalarSteps f φ a b tol).length ≤ 120 ∧
    (∀ r ∈ scalarSteps f φ a b tol, 0 < r.len) ∧
    (∀ r, (scalarSteps f φ a b tol).head? = some r → r.len = φ * (b - a)) ∧
    List.Chain' (fun r r' : GRec => r'.len = φ * r.len ∧ r'.len < r.len)
      (scalarSteps f φ a b tol) ∧
    (∀ r ∈ (scalarSteps f φ a b tol).dropLast, tol < r.len) := by
  obtain ⟨h1, h2, h3, h4, h5, _⟩ := goldenGo_spec f φ tol hphi0 hphi1 121 a b 0 hab
  rw [scalarSteps, if_pos hab]
  exact ⟨by simpa using h1, h2, h3, h4, h5⟩

/-- Witness for `goldenSection_shrinks`: the page's default cost function
`C(x) = 0.05x² - 3x + 200` on `[0, 60]` with `tol = 1/1000` and `φ` the
double-precision value of `(√5-1)/2`. -/
theorem goldenSection_shrinks_witness :
    (0 : ℚ) < 6180339887498949 / 10000000000000000 ∧
    (6180339887498949 : ℚ) / 10000000000000000 < 1 ∧ (0 : ℚ) < 60 ∧
    ((scalarSteps (fun x : ℚ => x ^ 2 / 20 - 3 * x + 200)
        (6180339887498949 / 10000000000000000) 0 60 (1 / 1000)).length ≤ 120 ∧
      (∀ r ∈ scalarSteps (fun x : ℚ => x ^ 2 / 20 - 3 * x + 200)
          (6180339887498949 / 10000000000000000) 0 60 (1 / 1000), 0 < r.len) ∧
      (∀ r, (scalarSteps (fun x : ℚ => x ^ 2 / 20 - 3 * x + 200)
          (6180339887498949 / 10000000000000000) 0 60 (1 / 1000)).head? = some r →
        r.len = 6180339887498949 / 10000000000000000 * ((60 : ℚ) - 0)) ∧
      List.Chain' (fun r r' : GRec => r'.len =
          6180339887498949 / 10000000000000000 * r.len ∧ r'.len < r.len)
        (scalarSteps (fun x : ℚ => x ^ 2 / 20 - 3 * x + 200)
          (6180339887498949 / 10000000000000000) 0 60 (1 / 1000)) ∧
      (∀ r ∈ (scalarSteps (fun x : ℚ => x ^ 2 / 20 - 3 * x + 200)
          (6180339887498949 / 10000000000000000) 0 60 (1 / 1000)).dropLast,
        (1 : ℚ) / 1000 < r.len)) :=
  ⟨by norm_num, by norm_num, by norm_num,
    goldenSection_shrinks (fun x : ℚ => x ^ 2 / 20 - 3 * x + 200)
      (6180339887498949 / 10000000000000000) 0 60 (1 / 1000)
      (by norm_num) (by norm_num) (by norm_num)⟩

end NumKernel
